import Mathlib

/-!
Formal model of the Strava sync core of the blog application
(`StravaService` in `Services`, `StravaStore` in `Stores`).

Conventions of the embedding:
* C# `decimal` / `double` fields are modelled as `ℚ` (all arithmetic the
  service performs on them is exact field arithmetic followed by
  `Math.Round`, which is round-half-to-even);
* C# `int` / `long` are modelled as `Int` (no overflow is relevant here);
* `DateTime` values are modelled as epoch seconds (`Int`); parsing of the
  remote ISO timestamps is modelled as already done;
* the Postgres database behind `StravaStore` is modelled as an explicit
  `Store` record of row lists; each `StravaStore` method becomes a pure
  function on `Store`;
* remote HTTP calls are modelled by a `RemoteResult` value supplied by the
  environment: a network fault, a non-success status code, an unparseable
  body, or a parsed payload.
-/

/-- C# `Math.Round(·, MidpointRounding.ToEven)` on the integer scale:
round to nearest, ties to the even integer (banker's rounding, the
`decimal` default used by the service). -/
def roundHalfEven (q : ℚ) : ℤ :=
  let f := ⌊q⌋
  let r := q - (f : ℚ)
  if r < 1/2 then f
  else if (1/2 : ℚ) < r then f + 1
  else if f % 2 = 0 then f else f + 1

/-- `Math.Round(q, p)`: round to `p` decimal places, ties to even. -/
def roundDec (p : Nat) (q : ℚ) : ℚ :=
  (roundHalfEven (q * 10 ^ p) : ℚ) / 10 ^ p

/-- Row of the `strava_activities` table (model class `StravaActivity`
plus the `created_at` column set by `NOW()` on insert). -/
structure StravaActivityRow where
  id : Int
  athleteId : Int
  name : String
  activityType : String
  distanceMeters : ℚ
  movingTimeSeconds : Int
  elapsedTimeSeconds : Int
  totalElevationGain : Option ℚ
  startDate : Int
  startDateLocal : Int
  averageSpeed : Option ℚ
  maxSpeed : Option ℚ
  averageHeartrate : Option ℚ
  maxHeartrate : Option Int
  summaryPolyline : Option String
  calories : Option Int
  locationCity : Option String
  locationState : Option String
  locationCountry : Option String
  createdAt : Int
  deriving Repr, DecidableEq

/-- In-memory `StravaActivity` built by `FetchActivitiesFromStrava`
before it is saved (`CreatedAt` is only assigned by the database). -/
structure StravaActivity where
  id : Int
  athleteId : Int
  name : String
  activityType : String
  distanceMeters : ℚ
  movingTimeSeconds : Int
  elapsedTimeSeconds : Int
  totalElevationGain : Option ℚ
  startDate : Int
  startDateLocal : Int
  averageSpeed : Option ℚ
  maxSpeed : Option ℚ
  averageHeartrate : Option ℚ
  maxHeartrate : Option Int
  summaryPolyline : Option String
  calories : Option Int
  locationCity : Option String
  locationState : Option String
  locationCountry : Option String
  deriving Repr, DecidableEq

/-- Row of the `strava_tokens` table (model class `StravaToken`). -/
structure StravaToken where
  athleteId : Int
  accessToken : String
  refreshToken : String
  expiresAt : Int
  deriving Repr, DecidableEq

/-- Row of the `strava_best_efforts` table (model class `StravaBestEffort`). -/
structure StravaBestEffort where
  id : Int
  activityId : Int
  athleteId : Int
  name : String
  distanceMeters : ℚ
  elapsedTimeSeconds : Int
  movingTimeSeconds : Int
  startDate : Int
  prRank : Option Int
  deriving Repr, DecidableEq

/-- Model class `PersonalBest` (derived, never persisted). -/
structure PersonalBest where
  name : String
  distanceMeters : ℚ
  bestTimeSeconds : Int
  achievedDate : Int
  activityId : Int
  deriving Repr, DecidableEq

/-- The Postgres database behind `StravaStore`: at most one token row,
the activity rows and the best-effort rows. -/
structure Store where
  token : Option StravaToken
  activities : List StravaActivityRow
  bestEfforts : List StravaBestEffort
  deriving Repr, DecidableEq

/-- `StravaStore.GetAllActivities` (the `ORDER BY start_date DESC` only
fixes presentation order; aggregate queries below are order-independent
and the one order-sensitive consumer, `lastRunDate`, is modelled via the
maximum start date directly). -/
def GetAllActivities (store : Store) : List StravaActivityRow :=
  store.activities

/-- Result object `StravaStats`; `new StravaStats()` is `{}`. -/
structure StravaStats where
  totalRuns : Nat := 0
  totalDistanceKm : ℚ := 0
  totalTimeMinutes : Int := 0
  totalElevationGain : ℚ := 0
  averagePaceMinPerKm : ℚ := 0
  lastRunDate : Option Int := none
  deriving Repr, DecidableEq

/-- `StravaService.GetStats`. `totalTime / 60` is C# `int` division
(truncation, `Int.tdiv`); the pace divides the raw decimal sums
`totalTime / 60m` and `totalDistance / 1000m`. `FirstOrDefault()` of the
start-date-descending activity list is the row with maximal `startDate`. -/
def GetStats (store : Store) : StravaStats :=
  let activities := GetAllActivities store
  match activities with
  | [] => {}
  | a0 :: rest =>
    let totalDistance : ℚ := ((a0 :: rest).map (·.distanceMeters)).sum
    let totalTime : Int := ((a0 :: rest).map (·.movingTimeSeconds)).sum
    let mostRecent := rest.foldl (fun b x => if b.startDate < x.startDate then x else b) a0
    { totalRuns := (a0 :: rest).length
      totalDistanceKm := roundDec 1 (totalDistance / 1000)
      totalTimeMinutes := totalTime.tdiv 60
      totalElevationGain :=
        roundDec 0 (((a0 :: rest).map (fun a => a.totalElevationGain.getD 0)).sum)
      averagePaceMinPerKm :=
        if 0 < totalDistance then
          roundDec 2 (((totalTime : ℚ) / 60) / (totalDistance / 1000))
        else 0
      lastRunDate := some mostRecent.startDateLocal }

/-- Outcome of one remote HTTP call, as the service observes it:
`netError` = the request itself threw, `httpFailure` = non-success status
(`EnsureSuccessStatusCode` / `IsSuccessStatusCode`), `parseFailure` =
`JsonSerializer.Deserialize` threw or returned null, `ok` = parsed body. -/
inductive RemoteResult (α : Type) where
  | netError
  | httpFailure
  | parseFailure
  | ok (payload : α)
  deriving Repr, DecidableEq

/-- The exceptions the service can surface to its caller. -/
inductive StravaError where
  | network
  | httpStatus
  | parse
  | notConnected
  deriving Repr, DecidableEq

/-- Parsed body of the refresh-token grant (`StravaRefreshResponse`). -/
structure StravaRefreshResponse where
  access_token : String
  refresh_token : String
  expires_at : Int
  deriving Repr, DecidableEq

/-- `StravaStore.SaveToken`: upsert keyed on `athlete_id`; the store holds
at most one token row, so this replaces it. -/
def SaveToken (store : Store) (token : StravaToken) : Store :=
  { store with token := some token }

/-- `StravaService.RefreshToken`: posts the refresh grant; any failure
throws before `SaveToken` is reached, so the store is untouched on the
error path. On success the row is overwritten and the new token returned. -/
def RefreshToken (store : Store) (resp : RemoteResult StravaRefreshResponse)
    (token : StravaToken) : Except StravaError (Store × StravaToken) :=
  match resp with
  | .netError => .error .network
  | .httpFailure => .error .httpStatus
  | .parseFailure => .error .parse
  | .ok r =>
    let t :=
      { token with
        accessToken := r.access_token
        refreshToken := r.refresh_token
        expiresAt := r.expires_at }
    .ok (SaveToken store t, t)

/-- Result of `StravaService.GetValidToken` together with the store it
leaves behind and whether the refresh endpoint was called at all. -/
structure TokenStep where
  store : Store
  result : Except StravaError (Option StravaToken)
  refreshCalled : Bool
  deriving Repr

/-- `StravaService.GetValidToken`: `DateTime.UtcNow.AddMinutes(5)` is
`now + 300` in epoch seconds. -/
def GetValidToken (store : Store) (now : Int) (resp : RemoteResult StravaRefreshResponse) :
    TokenStep :=
  match store.token with
  | none => ⟨store, .ok none, false⟩
  | some token =>
    if token.expiresAt ≤ now + 300 then
      match RefreshToken store resp token with
      | .error e => ⟨store, .error e, true⟩
      | .ok (store1, t) => ⟨store1, .ok (some t), true⟩
    else ⟨store, .ok (some token), false⟩

/-- One parsed item of the paginated activity-list endpoint
(`StravaActivityResponse`; `athlete.id` is flattened to `athlete_id`,
`map?.summary_polyline` to `summary_polyline`, dates to epoch seconds). -/
structure StravaActivityResponse where
  id : Int
  athlete_id : Int
  name : String
  type : String
  distance : ℚ
  moving_time : Int
  elapsed_time : Int
  total_elevation_gain : Option ℚ
  start_date : Int
  start_date_local : Int
  average_speed : Option ℚ
  max_speed : Option ℚ
  average_heartrate : Option ℚ
  max_heartrate : Option Int
  summary_polyline : Option String
  calories : Option Int
  location_city : Option String
  location_state : Option String
  location_country : Option String
  deriving Repr, DecidableEq

/-- The type filter and normalization applied to each fetched item inside
`FetchActivitiesFromStrava`: only `Run`, `VirtualRun`, `TrailRun` are
kept; everything else is discarded (`continue`). -/
def keepActivity (sa : StravaActivityResponse) : Option StravaActivity :=
  if sa.type = "Run" ∨ sa.type = "VirtualRun" ∨ sa.type = "TrailRun" then
    some { id := sa.id, athleteId := sa.athlete_id, name := sa.name,
           activityType := sa.type, distanceMeters := sa.distance,
           movingTimeSeconds := sa.moving_time, elapsedTimeSeconds := sa.elapsed_time,
           totalElevationGain := sa.total_elevation_gain, startDate := sa.start_date,
           startDateLocal := sa.start_date_local, averageSpeed := sa.average_speed,
           maxSpeed := sa.max_speed, averageHeartrate := sa.average_heartrate,
           maxHeartrate := sa.max_heartrate, summaryPolyline := sa.summary_polyline,
           calories := sa.calories, locationCity := sa.location_city,
           locationState := sa.location_state, locationCountry := sa.location_country }
  else none

/-- Response of one `GET /athlete/activities` page. -/
abbrev PageResult := RemoteResult (List StravaActivityResponse)

/-- `StravaService.FetchActivitiesFromStrava`: the `while (true)` page
loop, modelled over the stream of page responses the remote returns for
`page = 1, 2, ...` (an exhausted stream is an empty page).  Each page is
filtered and accumulated; any page failure throws away the whole run; a
page shorter than `per_page = 100` (including an empty or null page) ends
the loop. Nothing is persisted here — the accumulated list is returned. -/
def FetchActivitiesFromStrava : List PageResult → Except StravaError (List StravaActivity)
  | [] => .ok []
  | p :: rest =>
    match p with
    | .netError => .error .network
    | .httpFailure => .error .httpStatus
    | .parseFailure => .error .parse
    | .ok sas =>
      let kept := sas.filterMap keepActivity
      if sas.length < 100 then .ok kept
      else (FetchActivitiesFromStrava rest).map (fun more => kept ++ more)

/-- Fuel-driven worker for `chunksOf100` (structural recursion on the
fuel keeps it kernel-computable; the fuel is always the list length). -/
def chunksOf100Go : Nat → List α → List (List α)
  | _, [] => []
  | 0, _ :: _ => []
  | n + 1, x :: xs => ((x :: xs).take 100) :: chunksOf100Go n ((x :: xs).drop 100)

/-- Splits a list into successive chunks of 100 (the remote server's
pagination of its filtered history with `per_page = 100`). -/
def chunksOf100 (l : List α) : List (List α) :=
  chunksOf100Go l.length l

theorem chunksOf100Go_fuel (n m : Nat) (l : List α)
    (hn : l.length ≤ n) (hm : l.length ≤ m) :
    chunksOf100Go n l = chunksOf100Go m l := by
  induction n generalizing m l with
  | zero =>
    have : l = [] := List.eq_nil_of_length_eq_zero (Nat.le_zero.mp hn)
    subst this
    cases m <;> rfl
  | succ n ih =>
    cases l with
    | nil => cases m <;> rfl
    | cons x xs =>
      cases m with
      | zero => simp at hm
      | succ m =>
        show ((x :: xs).take 100) :: chunksOf100Go n ((x :: xs).drop 100) =
          ((x :: xs).take 100) :: chunksOf100Go m ((x :: xs).drop 100)
        have hd : ((x :: xs).drop 100).length ≤ n := by
          rw [List.length_drop]
          simp only [List.length_cons] at hn ⊢
          omega
        have hd2 : ((x :: xs).drop 100).length ≤ m := by
          rw [List.length_drop]
          simp only [List.length_cons] at hm ⊢
          omega
        rw [ih _ _ hd hd2]

/-- The remote server's `after` filter: with a cursor, only activities
strictly newer than the cursor epoch are returned. -/
def afterKeeps (after : Option Int) (sa : StravaActivityResponse) : Bool :=
  match after with
  | none => true
  | some cutoff => cutoff < sa.start_date

/-- Model of the remote activity-list endpoint for a fixed activity
history: the server filters by `after` and pages the result in chunks of
100, every page succeeding. -/
def serverRespond (history : List StravaActivityResponse) (after : Option Int) :
    List PageResult :=
  (chunksOf100 (history.filter (afterKeeps after))).map .ok

/-- `SELECT MAX(start_date)`: `none` on an empty table. -/
def maxOfInts : List Int → Option Int
  | [] => none
  | d :: ds => some (ds.foldl max d)

/-- `StravaStore.GetLatestActivityDate`. -/
def GetLatestActivityDate (store : Store) : Option Int :=
  maxOfInts (store.activities.map (·.startDate))

/-- One `INSERT ... ON CONFLICT (id) DO UPDATE` of `SaveActivities`: on
conflict only the listed mutable columns are overwritten — `athlete_id`,
`start_date`, `start_date_local` and `created_at` are not in the update
list and keep their stored values; a fresh row gets `created_at = NOW()`. -/
def hasId (rows : List StravaActivityRow) (i : Int) : Bool :=
  rows.any (fun r => r.id == i)

/-- The `DO UPDATE SET` column list of `SaveActivities`: `athlete_id`,
`start_date`, `start_date_local` and `created_at` are absent from it and
keep the stored row's values. -/
def updateRow (r : StravaActivityRow) (a : StravaActivity) : StravaActivityRow :=
  { r with
    name := a.name
    activityType := a.activityType
    distanceMeters := a.distanceMeters
    movingTimeSeconds := a.movingTimeSeconds
    elapsedTimeSeconds := a.elapsedTimeSeconds
    totalElevationGain := a.totalElevationGain
    averageSpeed := a.averageSpeed
    maxSpeed := a.maxSpeed
    averageHeartrate := a.averageHeartrate
    maxHeartrate := a.maxHeartrate
    summaryPolyline := a.summaryPolyline
    calories := a.calories
    locationCity := a.locationCity
    locationState := a.locationState
    locationCountry := a.locationCountry }

def upsertActivity (now : Int) (rows : List StravaActivityRow) (a : StravaActivity) :
    List StravaActivityRow :=
  if hasId rows a.id then
    rows.map (fun r => if r.id = a.id then updateRow r a else r)
  else
    rows ++
      [{ id := a.id
         athleteId := a.athleteId
         name := a.name
         activityType := a.activityType
         distanceMeters := a.distanceMeters
         movingTimeSeconds := a.movingTimeSeconds
         elapsedTimeSeconds := a.elapsedTimeSeconds
         totalElevationGain := a.totalElevationGain
         startDate := a.startDate
         startDateLocal := a.startDateLocal
         averageSpeed := a.averageSpeed
         maxSpeed := a.maxSpeed
         averageHeartrate := a.averageHeartrate
         maxHeartrate := a.maxHeartrate
         summaryPolyline := a.summaryPolyline
         calories := a.calories
         locationCity := a.locationCity
         locationState := a.locationState
         locationCountry := a.locationCountry
         createdAt := now }]

/-- `StravaStore.SaveActivities`: one upsert per activity, in order. -/
def SaveActivities (store : Store) (now : Int) (activities : List StravaActivity) : Store :=
  { store with activities := activities.foldl (upsertActivity now) store.activities }

/-- One parsed best effort embedded in the detailed-activity payload
(`StravaBestEffortResponse`, `athlete.id` flattened). -/
structure StravaBestEffortResponse where
  id : Int
  activity_id : Int
  athlete_id : Int
  name : String
  distance : ℚ
  elapsed_time : Int
  moving_time : Int
  start_date : Int
  pr_rank : Option Int
  deriving Repr, DecidableEq

/-- Parsed detailed-activity payload; only its `best_efforts` member is
read by the service (`null` stays distinct from an empty list). -/
structure StravaDetailedActivityResponse where
  best_efforts : Option (List StravaBestEffortResponse)
  deriving Repr, DecidableEq

/-- The per-effort normalization inside `SyncBestEfforts`. -/
def toBestEffort (be : StravaBestEffortResponse) : StravaBestEffort :=
  { id := be.id, activityId := be.activity_id, athleteId := be.athlete_id,
    name := be.name, distanceMeters := be.distance,
    elapsedTimeSeconds := be.elapsed_time, movingTimeSeconds := be.moving_time,
    startDate := be.start_date, prRank := be.pr_rank }

/-- One `INSERT ... ON CONFLICT (id) DO NOTHING` of `SaveBestEfforts`:
insert-if-absent, an existing identifier is never updated. -/
def insertBestEffort (rows : List StravaBestEffort) (e : StravaBestEffort) :
    List StravaBestEffort :=
  if rows.any (fun r => r.id == e.id) then rows else rows ++ [e]

/-- `StravaStore.SaveBestEfforts`. -/
def SaveBestEfforts (store : Store) (efforts : List StravaBestEffort) : Store :=
  { store with bestEfforts := efforts.foldl insertBestEffort store.bestEfforts }

/-- `StravaStore.GetActivityIdsWithoutBestEfforts`: `LEFT JOIN ... WHERE
be.id IS NULL` — identifiers of activities no best-effort row points at. -/
def GetActivityIdsWithoutBestEfforts (store : Store) : List Int :=
  (store.activities.filter
    (fun a => !(store.bestEfforts.any (fun be => be.activityId == a.id)))).map (·.id)

/-- Observable events of the enrichment pass: a detail-endpoint request
(issued or attempted), a persisted batch, a `Task.Delay(100)`. -/
inductive SyncEvent where
  | detailCall (activityId : Int)
  | saveEfforts (efforts : List StravaBestEffort)
  | delay (ms : Nat)
  deriving Repr, DecidableEq

/-- One iteration of the `foreach` in `SyncBestEfforts`: any failure
(network throw, non-success status, parse failure) and a null or empty
best-effort list all `continue`; only a non-empty parsed list is saved,
followed by the 100 ms delay. -/
def syncBestEffortStep (detail : Int → RemoteResult StravaDetailedActivityResponse)
    (acc : Store × List SyncEvent) (activityId : Int) : Store × List SyncEvent :=
  match detail activityId with
  | .ok d =>
    match d.best_efforts with
    | some (be0 :: bes) =>
      let efforts := (be0 :: bes).map toBestEffort
      (SaveBestEfforts acc.1 efforts,
       acc.2 ++ [.detailCall activityId, .saveEfforts efforts, .delay 100])
    | _ => (acc.1, acc.2 ++ [.detailCall activityId])
  | _ => (acc.1, acc.2 ++ [.detailCall activityId])

/-- `StravaService.SyncBestEfforts`, returning the store it leaves behind
and the trace of its observable events. -/
def SyncBestEfforts (store : Store)
    (detail : Int → RemoteResult StravaDetailedActivityResponse) :
    Store × List SyncEvent :=
  (GetActivityIdsWithoutBestEfforts store).foldl (syncBestEffortStep detail) (store, [])

/-- The remote side of one sync run: the refresh endpoint's answer, the
list endpoint's page stream as a function of the `after` cursor, and the
detail endpoint's answer per activity identifier. -/
structure RemoteEnv where
  refreshResp : RemoteResult StravaRefreshResponse
  pages : Option Int → List PageResult
  detail : Int → RemoteResult StravaDetailedActivityResponse

/-- `StravaService.SyncActivities`: valid token, cursor, paginated fetch,
one `SaveActivities` batch when anything was kept, enrichment pass,
returns the retained count. A thrown error leaves the store as it was at
the throw point. -/
def SyncActivities (store : Store) (now : Int) (env : RemoteEnv) :
    Store × Except StravaError Nat :=
  let step := GetValidToken store now env.refreshResp
  match step.result with
  | .error e => (step.store, .error e)
  | .ok none => (step.store, .error .notConnected)
  | .ok (some _) =>
    let latestDate := GetLatestActivityDate step.store
    match FetchActivitiesFromStrava (env.pages latestDate) with
    | .error e => (step.store, .error e)
    | .ok activities =>
      let store2 := if activities.isEmpty then step.store
                    else SaveActivities step.store now activities
      let store3 := (SyncBestEfforts store2 env.detail).1
      (store3, .ok activities.length)

/-- First row attaining the minimal moving time (ties go to the earlier
row, the stable order `DISTINCT ON ... ORDER BY name, moving_time ASC`
exposes). -/
def minByMovingTime (e : StravaBestEffort) (es : List StravaBestEffort) : StravaBestEffort :=
  es.foldl (fun b x => if x.movingTimeSeconds < b.movingTimeSeconds then x else b) e

/-- The column projection `GetPersonalBests` applies to the selected row. -/
def toPersonalBest (best : StravaBestEffort) : PersonalBest :=
  { name := best.name, distanceMeters := best.distanceMeters,
    bestTimeSeconds := best.movingTimeSeconds,
    achievedDate := best.startDate, activityId := best.activityId }

/-- `StravaStore.GetPersonalBests`: `SELECT DISTINCT ON (name) ... ORDER
BY name, moving_time_seconds ASC` — per distinct bucket name, the row
with minimal moving time. -/
def GetPersonalBests (store : Store) : List PersonalBest :=
  ((store.bestEfforts.map (·.name)).dedup).filterMap (fun n =>
    match store.bestEfforts.filter (fun e => e.name == n) with
    | [] => none
    | e :: es => some (toPersonalBest (minByMovingTime e es)))

/-! ## Helper values for concrete instances -/

/-- An activity row with every field at its C# property default. -/
def blankRow : StravaActivityRow :=
  ⟨0, 0, "", "", 0, 0, 0, none, 0, 0, none, none, none, none, none, none, none, none, none, 0⟩

/-- A fetched activity with every field at its C# property default. -/
def blankActivity : StravaActivity :=
  ⟨0, 0, "", "", 0, 0, 0, none, 0, 0, none, none, none, none, none, none, none, none, none⟩

/-- A list-endpoint item with every field at its C# property default. -/
def blankResp : StravaActivityResponse :=
  ⟨0, 0, "", "", 0, 0, 0, none, 0, 0, none, none, none, none, none, none, none, none, none⟩

/-- A best-effort row with every field at its C# property default. -/
def blankEffort : StravaBestEffort :=
  ⟨0, 0, 0, "", 0, 0, 0, 0, none⟩

/-- The store refuting the spec's pace formula: one run of 1234 m in
600 s.  The code's pace is `round2(10 / 1.234) = 8.10`; the spec's
`round2(totalTimeMinutes / totalDistanceKm) = round2(10 / 1.2) = 8.33`. -/
def paceStore : Store :=
  { token := none
    activities := [{ blankRow with
                     id := 1
                     activityType := "Run"
                     distanceMeters := 1234
                     movingTimeSeconds := 600 }]
    bestEfforts := [] }

/-! ## Statistics (claims about `GetStats`) -/

/-- **C2, counterexample.** On a store with one 1234 m / 600 s run (total
distance positive), the pace `GetStats` returns is *not* the rounded
quotient of the published `totalTimeMinutes` (floored) and
`totalDistanceKm` (rounded to 1 decimal): the code divides the raw sums
(8.10 min/km), the claimed formula gives 8.33 min/km. -/
theorem getStats_pace_not_from_rounded_fields :
    0 < ((paceStore.activities.map (·.distanceMeters)).sum) ∧
    (GetStats paceStore).averagePaceMinPerKm = 81 / 10 ∧
    roundDec 2 (((GetStats paceStore).totalTimeMinutes : ℚ) /
      (GetStats paceStore).totalDistanceKm) = 833 / 100 ∧
    (GetStats paceStore).averagePaceMinPerKm ≠
      roundDec 2 (((GetStats paceStore).totalTimeMinutes : ℚ) /
        (GetStats paceStore).totalDistanceKm) := by
  have h1 : (GetStats paceStore).averagePaceMinPerKm = 81 / 10 := by
    simp only [GetStats, GetAllActivities, paceStore, blankRow]
    norm_num [roundDec, roundHalfEven]
  have h2 : roundDec 2 (((GetStats paceStore).totalTimeMinutes : ℚ) /
      (GetStats paceStore).totalDistanceKm) = 833 / 100 := by
    simp only [GetStats, GetAllActivities, paceStore, blankRow]
    norm_num [roundDec, roundHalfEven, Int.tdiv]
  refine ⟨?_, h1, h2, ?_⟩
  · simp only [paceStore, blankRow, List.map_cons, List.map_nil, List.sum_cons, List.sum_nil]
    norm_num
  · rw [h1, h2]; norm_num

/-- **C2, amended.** For a non-empty store, `GetStats` returns
`averagePaceMinPerKm` equal to the raw quotient
`round2((sum(movingTime)/60) / (sum(distance)/1000))` — computed from the
unfloored, unrounded sums, not from the published `totalTimeMinutes` and
`totalDistanceKm` — whenever the total distance is positive, and `0`
whenever the total distance is zero. -/
theorem getStats_pace_raw_sums (store : Store) (hne : store.activities ≠ []) :
    (0 < (store.activities.map (·.distanceMeters)).sum →
      (GetStats store).averagePaceMinPerKm =
        roundDec 2 (((((store.activities.map (·.movingTimeSeconds)).sum : Int) : ℚ) / 60) /
          ((store.activities.map (·.distanceMeters)).sum / 1000))) ∧
    ((store.activities.map (·.distanceMeters)).sum = 0 →
      (GetStats store).averagePaceMinPerKm = 0) := by
  cases h : store.activities with
  | nil => exact absurd h hne
  | cons a0 rest =>
    constructor
    · intro hpos
      simp only [GetStats, GetAllActivities, h]
      rw [if_pos hpos]
    · intro hz
      simp only [GetStats, GetAllActivities, h]
      rw [if_neg (by rw [hz]; exact lt_irrefl 0)]

/-- Witness store for the amended pace claim: one 1000 m / 300 s run. -/
def evenPaceStore : Store :=
  { token := none
    activities := [{ blankRow with
                     id := 2
                     activityType := "Run"
                     distanceMeters := 1000
                     movingTimeSeconds := 300 }]
    bestEfforts := [] }

/-- Witness for `getStats_pace_raw_sums` at `evenPaceStore`. -/
theorem getStats_pace_raw_sums_witness :
    (GetStats evenPaceStore).averagePaceMinPerKm =
      roundDec 2 (((((evenPaceStore.activities.map (·.movingTimeSeconds)).sum : Int) : ℚ) / 60) /
        ((evenPaceStore.activities.map (·.distanceMeters)).sum / 1000)) :=
  (getStats_pace_raw_sums evenPaceStore (by simp [evenPaceStore])).1
    (by simp [evenPaceStore, blankRow])

/-- **C3.** For a store holding exactly two activities, `GetStats`
returns `totalDistanceKm = round1((d1+d2)/1000)` and
`averagePaceMinPerKm = round2(((t1+t2)/60) / ((d1+d2)/1000))`, the pace
computed from the raw (unrounded, unfloored) sums. -/
theorem getStats_two_activities (store : Store) (a1 a2 : StravaActivityRow)
    (h : store.activities = [a1, a2])
    (hpos : 0 < a1.distanceMeters + a2.distanceMeters) :
    (GetStats store).totalDistanceKm =
      roundDec 1 ((a1.distanceMeters + a2.distanceMeters) / 1000) ∧
    (GetStats store).averagePaceMinPerKm =
      roundDec 2 ((((a1.movingTimeSeconds + a2.movingTimeSeconds : Int) : ℚ) / 60) /
        ((a1.distanceMeters + a2.distanceMeters) / 1000)) := by
  have hsum : 0 < (List.map (fun x => x.distanceMeters) [a1, a2]).sum := by
    simpa using hpos
  constructor
  · simp only [GetStats, GetAllActivities, h, List.map_cons, List.map_nil, List.sum_cons,
      List.sum_nil, add_zero]
  · simp only [GetStats, GetAllActivities, h]
    rw [if_pos hsum]
    congr 2
    · push_cast
      simp
    · simp

/-- Witness store for `getStats_two_activities`: 5000 m in 1500 s twice. -/
def twoRunStore : Store :=
  { token := none
    activities :=
      [{ blankRow with
         id := 1
         activityType := "Run"
         distanceMeters := 5000
         movingTimeSeconds := 1500 },
       { blankRow with
         id := 2
         activityType := "Run"
         distanceMeters := 5000
         movingTimeSeconds := 1500 }]
    bestEfforts := [] }

/-- Witness for `getStats_two_activities` at `twoRunStore`:
10.0 km total, 5.00 min/km pace. -/
theorem getStats_two_activities_witness :
    (GetStats twoRunStore).totalDistanceKm = 10 ∧
    (GetStats twoRunStore).averagePaceMinPerKm = 5 := by
  have h := getStats_two_activities twoRunStore
    { blankRow with
      id := 1
      activityType := "Run"
      distanceMeters := 5000
      movingTimeSeconds := 1500 }
    { blankRow with
      id := 2
      activityType := "Run"
      distanceMeters := 5000
      movingTimeSeconds := 1500 }
    rfl (by norm_num [blankRow])
  refine ⟨h.1.trans ?_, h.2.trans ?_⟩ <;>
    norm_num [blankRow, roundDec, roundHalfEven]

/-! ## Token manager (claims about `GetValidToken` / `RefreshToken`) -/

/-- The in-memory token mutation `RefreshToken` applies on a successful
refresh grant before persisting it. -/
def refreshedToken (token : StravaToken) (r : StravaRefreshResponse) : StravaToken :=
  { token with
    accessToken := r.access_token
    refreshToken := r.refresh_token
    expiresAt := r.expires_at }

/-- **C4.** With a stored token, `GetValidToken` issues the refresh grant
iff `expiresAt <= now + 5 min`; otherwise it returns the stored token
unchanged with no network call and an unchanged store; and when the
refresh is triggered and succeeds, the refreshed token is both persisted
and returned. -/
theorem getValidToken_refresh_iff (store : Store) (now : Int)
    (resp : RemoteResult StravaRefreshResponse) (t : StravaToken)
    (h : store.token = some t) :
    ((GetValidToken store now resp).refreshCalled = true ↔ t.expiresAt ≤ now + 300) ∧
    (¬ t.expiresAt ≤ now + 300 →
      (GetValidToken store now resp).result = .ok (some t) ∧
      (GetValidToken store now resp).store = store) ∧
    (t.expiresAt ≤ now + 300 → ∀ r, resp = .ok r →
      (GetValidToken store now resp).store = SaveToken store (refreshedToken t r) ∧
      (GetValidToken store now resp).result = .ok (some (refreshedToken t r))) := by
  by_cases hexp : t.expiresAt ≤ now + 300
  · refine ⟨⟨fun _ => hexp, fun _ => ?_⟩, fun hc => absurd hexp hc, fun _ r hr => ?_⟩
    · cases resp <;> simp [GetValidToken, h, hexp, RefreshToken]
    · subst hr
      simp [GetValidToken, h, hexp, RefreshToken, refreshedToken]
  · refine ⟨⟨fun hc => ?_, fun hc => absurd hc hexp⟩, fun _ => ?_, fun hc => absurd hc hexp⟩
    · rw [GetValidToken.eq_def] at hc
      simp [h, hexp] at hc
    · constructor <;> simp [GetValidToken, h, hexp]

/-- A store whose token is already stale at `now = 0`. -/
def staleStore : Store :=
  { token := some ⟨7, "old-access", "old-refresh", 100⟩
    activities := []
    bestEfforts := [] }

/-- A store whose token is still fresh at `now = 0`. -/
def freshStore : Store :=
  { token := some ⟨7, "cur-access", "cur-refresh", 10000⟩
    activities := []
    bestEfforts := [] }

/-- A successful refresh-grant payload. -/
def demoRefresh : StravaRefreshResponse :=
  ⟨"new-access", "new-refresh", 99999⟩

/-- Witness for `getValidToken_refresh_iff`: the stale token triggers the
refresh and the refreshed token is persisted; the fresh token is returned
as stored even when the network would fail. -/
theorem getValidToken_refresh_iff_witness :
    (GetValidToken staleStore 0 (.ok demoRefresh)).refreshCalled = true ∧
    (GetValidToken staleStore 0 (.ok demoRefresh)).store.token =
      some (refreshedToken ⟨7, "old-access", "old-refresh", 100⟩ demoRefresh) ∧
    (GetValidToken freshStore 0 .netError).result =
      .ok (some ⟨7, "cur-access", "cur-refresh", 10000⟩) ∧
    (GetValidToken freshStore 0 .netError).store = freshStore := by
  refine ⟨?_, ?_, ?_, ?_⟩
  · exact (getValidToken_refresh_iff staleStore 0 (.ok demoRefresh)
      ⟨7, "old-access", "old-refresh", 100⟩ rfl).1.mpr (by decide)
  · have := ((getValidToken_refresh_iff staleStore 0 (.ok demoRefresh)
      ⟨7, "old-access", "old-refresh", 100⟩ rfl).2.2 (by decide) demoRefresh rfl).1
    rw [this]; rfl
  · exact ((getValidToken_refresh_iff freshStore 0 .netError
      ⟨7, "cur-access", "cur-refresh", 10000⟩ rfl).2.1 (by decide)).1
  · exact ((getValidToken_refresh_iff freshStore 0 .netError
      ⟨7, "cur-access", "cur-refresh", 10000⟩ rfl).2.1 (by decide)).2

/-- **C5.** When the refresh grant fails (network throw, non-success
status, or unparseable body), `RefreshToken` surfaces an error, the error
propagates out of `GetValidToken`, and the stored token row is left
exactly as it was — no partial or refreshed token is saved. -/
theorem refreshToken_failure_keeps_store (store : Store) (now : Int)
    (resp : RemoteResult StravaRefreshResponse) (t : StravaToken)
    (h : store.token = some t) (hexp : t.expiresAt ≤ now + 300)
    (hfail : ∀ r, resp ≠ .ok r) :
    (∃ e, RefreshToken store resp t = .error e) ∧
    (∃ e, (GetValidToken store now resp).result = .error e) ∧
    (GetValidToken store now resp).store = store := by
  cases resp with
  | ok r => exact absurd rfl (hfail r)
  | netError => exact ⟨⟨.network, rfl⟩, by simp [GetValidToken, h, hexp, RefreshToken]⟩
  | httpFailure => exact ⟨⟨.httpStatus, rfl⟩, by simp [GetValidToken, h, hexp, RefreshToken]⟩
  | parseFailure => exact ⟨⟨.parse, rfl⟩, by simp [GetValidToken, h, hexp, RefreshToken]⟩

/-- Witness for `refreshToken_failure_keeps_store`: a non-success status
on the refresh of the stale token leaves the store untouched. -/
theorem refreshToken_failure_keeps_store_witness :
    (GetValidToken staleStore 0 .httpFailure).store = staleStore :=
  (refreshToken_failure_keeps_store staleStore 0 .httpFailure
    ⟨7, "old-access", "old-refresh", 100⟩ rfl (by decide) (fun _ hr => by cases hr)).2.2

/-! ## Upsert frame lemmas (shared by the save/sync claims) -/

/-- The columns `SaveActivities` never touches on a conflicting row:
`id`, `athlete_id`, `start_date`, `start_date_local`, `created_at`. -/
def frameFields (r : StravaActivityRow) : Int × Int × Int × Int × Int :=
  (r.id, r.athleteId, r.startDate, r.startDateLocal, r.createdAt)

theorem hasId_iff (rows : List StravaActivityRow) (i : Int) :
    hasId rows i = true ↔ ∃ r ∈ rows, r.id = i := by
  simp [hasId, List.any_eq_true]

theorem updateRow_id (r : StravaActivityRow) (a : StravaActivity) :
    (updateRow r a).id = r.id := rfl

theorem upsert_frame (now : Int) (rows : List StravaActivityRow) (a : StravaActivity)
    (h : hasId rows a.id = true) :
    (upsertActivity now rows a).map frameFields = rows.map frameFields := by
  simp only [upsertActivity, h, if_true]
  rw [List.map_map]
  refine List.map_congr_left (fun r _ => ?_)
  by_cases hid : r.id = a.id <;> simp [Function.comp, hid, frameFields, updateRow]

theorem upsert_ids (now : Int) (rows : List StravaActivityRow) (a : StravaActivity) (j : Int) :
    (∃ r ∈ upsertActivity now rows a, r.id = j) ↔
      (∃ r ∈ rows, r.id = j) ∨ a.id = j := by
  cases h : hasId rows a.id with
  | true =>
    simp only [upsertActivity, h, if_true]
    constructor
    · rintro ⟨r, hr, hrid⟩
      obtain ⟨r0, hr0, rfl⟩ := List.mem_map.mp hr
      by_cases hid : r0.id = a.id
      · rw [if_pos hid, updateRow_id] at hrid
        exact Or.inl ⟨r0, hr0, hrid⟩
      · rw [if_neg hid] at hrid
        exact Or.inl ⟨r0, hr0, hrid⟩
    · rintro (⟨r, hr, hrid⟩ | rfl)
      · refine ⟨if r.id = a.id then updateRow r a else r, List.mem_map.mpr ⟨r, hr, rfl⟩, ?_⟩
        by_cases hid : r.id = a.id
        · rw [if_pos hid, updateRow_id]; exact hrid
        · rw [if_neg hid]; exact hrid
      · obtain ⟨r, hr, hrid⟩ := (hasId_iff rows a.id).mp h
        refine ⟨if r.id = a.id then updateRow r a else r, List.mem_map.mpr ⟨r, hr, rfl⟩, ?_⟩
        rw [if_pos hrid, updateRow_id]; exact hrid
  | false =>
    simp only [upsertActivity, h, Bool.false_eq_true, if_false]
    constructor
    · rintro ⟨r, hr, hrid⟩
      rcases List.mem_append.mp hr with hr' | hr'
      · exact Or.inl ⟨r, hr', hrid⟩
      · rcases List.mem_singleton.mp hr' with rfl
        exact Or.inr hrid
    · rintro (⟨r, hr, hrid⟩ | rfl)
      · exact ⟨r, List.mem_append.mpr (Or.inl hr), hrid⟩
      · exact ⟨_, List.mem_append.mpr (Or.inr (List.mem_singleton.mpr rfl)), rfl⟩

theorem saveList_ids (now : Int) (acts : List StravaActivity)
    (rows : List StravaActivityRow) (j : Int) :
    (∃ r ∈ acts.foldl (upsertActivity now) rows, r.id = j) ↔
      (∃ r ∈ rows, r.id = j) ∨ (∃ a ∈ acts, a.id = j) := by
  induction acts generalizing rows with
  | nil => simp
  | cons a rest ih =>
    rw [List.foldl_cons, ih, upsert_ids]
    simp only [List.mem_cons]
    constructor
    · rintro ((h | h) | ⟨b, hb, hbid⟩)
      · exact Or.inl h
      · exact Or.inr ⟨a, Or.inl rfl, h⟩
      · exact Or.inr ⟨b, Or.inr hb, hbid⟩
    · rintro (h | ⟨b, (rfl | hb), hbid⟩)
      · exact Or.inl (Or.inl h)
      · exact Or.inl (Or.inr hbid)
      · exact Or.inr ⟨b, hb, hbid⟩

theorem saveList_frame (now : Int) (acts : List StravaActivity)
    (rows : List StravaActivityRow)
    (h : ∀ a ∈ acts, hasId rows a.id = true) :
    (acts.foldl (upsertActivity now) rows).map frameFields = rows.map frameFields := by
  induction acts generalizing rows with
  | nil => rfl
  | cons a rest ih =>
    rw [List.foldl_cons]
    have h' : ∀ b ∈ rest, hasId (upsertActivity now rows a) b.id = true := by
      intro b hb
      exact (hasId_iff _ _).mpr ((upsert_ids now rows a b.id).mpr
        (Or.inl ((hasId_iff _ _).mp (h b (List.mem_cons_of_mem a hb)))))
    rw [ih _ h', upsert_frame now rows a (h a (List.mem_cons_self a rest))]

theorem startDates_eq_of_frame (rows1 rows2 : List StravaActivityRow)
    (h : rows1.map frameFields = rows2.map frameFields) :
    rows1.map (·.startDate) = rows2.map (·.startDate) := by
  have := congrArg (List.map (fun t : Int × Int × Int × Int × Int => t.2.2.1)) h
  simpa [List.map_map, Function.comp, frameFields] using this

/-! ## Claim C10: `SaveActivities` frame on existing rows -/

/-- **C10.** When every upserted activity's identifier already exists in
the store, `SaveActivities` keeps each row's `id`, `athleteId`,
`startDate`, `startDateLocal` and `createdAt` unchanged (the conflict
update overwrites exactly the mutable columns — witnessed field by field
on `updateRow`), and consequently the incremental cursor
`GetLatestActivityDate` is unchanged. -/
theorem saveActivities_existing_keeps_frame (store : Store) (now : Int)
    (acts : List StravaActivity)
    (h : ∀ a ∈ acts, ∃ r ∈ store.activities, r.id = a.id) :
    ((SaveActivities store now acts).activities.map frameFields =
      store.activities.map frameFields) ∧
    GetLatestActivityDate (SaveActivities store now acts) = GetLatestActivityDate store ∧
    (∀ (r : StravaActivityRow) (a2 : StravaActivity),
      frameFields (updateRow r a2) = frameFields r ∧
      (updateRow r a2).name = a2.name ∧
      (updateRow r a2).activityType = a2.activityType ∧
      (updateRow r a2).distanceMeters = a2.distanceMeters ∧
      (updateRow r a2).movingTimeSeconds = a2.movingTimeSeconds ∧
      (updateRow r a2).elapsedTimeSeconds = a2.elapsedTimeSeconds ∧
      (updateRow r a2).totalElevationGain = a2.totalElevationGain ∧
      (updateRow r a2).averageSpeed = a2.averageSpeed ∧
      (updateRow r a2).maxSpeed = a2.maxSpeed ∧
      (updateRow r a2).averageHeartrate = a2.averageHeartrate ∧
      (updateRow r a2).maxHeartrate = a2.maxHeartrate ∧
      (updateRow r a2).summaryPolyline = a2.summaryPolyline ∧
      (updateRow r a2).calories = a2.calories ∧
      (updateRow r a2).locationCity = a2.locationCity ∧
      (updateRow r a2).locationState = a2.locationState ∧
      (updateRow r a2).locationCountry = a2.locationCountry) := by
  have hframe := saveList_frame now acts store.activities
    (fun a ha => (hasId_iff _ _).mpr (h a ha))
  refine ⟨hframe, ?_, fun r a2 =>
    ⟨rfl, rfl, rfl, rfl, rfl, rfl, rfl, rfl, rfl, rfl, rfl, rfl, rfl, rfl, rfl, rfl⟩⟩
  exact congrArg maxOfInts (startDates_eq_of_frame _ _ hframe)

/-- A one-row store for the C10 witness: id 1, started at 500. -/
def frameStore : Store :=
  { token := none
    activities := [{ blankRow with
                     id := 1
                     athleteId := 7
                     activityType := "Run"
                     startDate := 500
                     startDateLocal := 480
                     createdAt := 42 }]
    bestEfforts := [] }

/-- A re-fetched copy of activity 1 carrying a *newer* start date. -/
def frameAct : StravaActivity :=
  { blankActivity with
    id := 1
    athleteId := 9
    name := "Renamed Run"
    activityType := "TrailRun"
    startDate := 999
    startDateLocal := 980 }

/-- Witness for `saveActivities_existing_keeps_frame`: re-upserting
activity 1 does not move the cursor. -/
theorem saveActivities_existing_keeps_frame_witness :
    GetLatestActivityDate (SaveActivities frameStore 1000 [frameAct]) =
      GetLatestActivityDate frameStore :=
  (saveActivities_existing_keeps_frame frameStore 1000 [frameAct]
    (by intro a ha
        rcases List.mem_singleton.mp ha with rfl
        exact ⟨_, List.mem_singleton.mpr rfl, rfl⟩)).2.1

/-! ## Claim C7: `GetPersonalBests` picks the bucket minimum -/

theorem minByMovingTime_mem (e : StravaBestEffort) (es : List StravaBestEffort) :
    minByMovingTime e es ∈ e :: es := by
  induction es generalizing e with
  | nil => simp [minByMovingTime]
  | cons x xs ih =>
    have heq : minByMovingTime e (x :: xs) =
        minByMovingTime (if x.movingTimeSeconds < e.movingTimeSeconds then x else e) xs := rfl
    rw [heq]
    rcases List.mem_cons.mp (ih (if x.movingTimeSeconds < e.movingTimeSeconds then x else e))
      with h | h
    · rw [h]
      by_cases hx : x.movingTimeSeconds < e.movingTimeSeconds <;> simp [hx]
    · exact List.mem_cons_of_mem _ (List.mem_cons_of_mem _ h)

theorem minByMovingTime_le (e : StravaBestEffort) (es : List StravaBestEffort) :
    ∀ x ∈ e :: es,
      (minByMovingTime e es).movingTimeSeconds ≤ x.movingTimeSeconds := by
  induction es generalizing e with
  | nil =>
    intro x hx
    rcases List.mem_cons.mp hx with rfl | h
    · exact le_refl _
    · cases h
  | cons y ys ih =>
    intro x hx
    have heq : minByMovingTime e (y :: ys) =
        minByMovingTime (if y.movingTimeSeconds < e.movingTimeSeconds then y else e) ys := rfl
    rw [heq]
    have hle_e : (if y.movingTimeSeconds < e.movingTimeSeconds then y
        else e).movingTimeSeconds ≤ e.movingTimeSeconds := by
      by_cases hy : y.movingTimeSeconds < e.movingTimeSeconds <;> simp [hy] <;> omega
    have hle_y : (if y.movingTimeSeconds < e.movingTimeSeconds then y
        else e).movingTimeSeconds ≤ y.movingTimeSeconds := by
      by_cases hy : y.movingTimeSeconds < e.movingTimeSeconds <;> simp [hy] <;> omega
    have hmin := ih (if y.movingTimeSeconds < e.movingTimeSeconds then y else e) _
      (List.mem_cons_self _ _)
    rcases List.mem_cons.mp hx with rfl | hx'
    · exact le_trans hmin hle_e
    · rcases List.mem_cons.mp hx' with rfl | hx''
      · exact le_trans hmin hle_y
      · exact ih _ x (List.mem_cons_of_mem _ hx'')

/-- Every personal best returned for a store comes from a stored
best-effort row that is minimal in moving time among the rows sharing its
bucket name. -/
theorem getPersonalBests_elem_spec (store : Store) (pb : PersonalBest)
    (hpb : pb ∈ GetPersonalBests store) :
    ∃ best ∈ store.bestEfforts,
      pb.name = best.name ∧ pb.bestTimeSeconds = best.movingTimeSeconds ∧
      pb.distanceMeters = best.distanceMeters ∧ pb.achievedDate = best.startDate ∧
      pb.activityId = best.activityId ∧
      ∀ e ∈ store.bestEfforts, e.name = best.name →
        best.movingTimeSeconds ≤ e.movingTimeSeconds := by
  rw [GetPersonalBests, List.mem_filterMap] at hpb
  obtain ⟨n, _, hf⟩ := hpb
  cases hfil : store.bestEfforts.filter (fun e => e.name == n) with
  | nil => rw [hfil] at hf; cases hf
  | cons e es =>
    rw [hfil] at hf
    have hpbeq := Option.some.inj hf
    have hbm : minByMovingTime e es ∈ store.bestEfforts.filter (fun x => x.name == n) := by
      rw [hfil]; exact minByMovingTime_mem e es
    have hmem := (List.mem_filter.mp hbm).1
    have hname : (minByMovingTime e es).name = n := by
      simpa using (List.mem_filter.mp hbm).2
    refine ⟨minByMovingTime e es, hmem, ?_, ?_, ?_, ?_, ?_, ?_⟩
    · rw [← hpbeq]; rfl
    · rw [← hpbeq]; rfl
    · rw [← hpbeq]; rfl
    · rw [← hpbeq]; rfl
    · rw [← hpbeq]; rfl
    · intro e2 he2 hname2
      have he2f : e2 ∈ store.bestEfforts.filter (fun x => x.name == n) :=
        List.mem_filter.mpr ⟨he2, by simp [hname2, hname]⟩
      rw [hfil] at he2f
      exact minByMovingTime_le e es e2 he2f

/-- Every bucket name present among the stored best efforts yields a
personal best carrying that name. -/
theorem getPersonalBests_covers (store : Store) (n : String)
    (h : ∃ e ∈ store.bestEfforts, e.name = n) :
    ∃ pb ∈ GetPersonalBests store, pb.name = n := by
  obtain ⟨e, he, hen⟩ := h
  have hn : n ∈ (store.bestEfforts.map (·.name)).dedup :=
    List.mem_dedup.mpr (List.mem_map.mpr ⟨e, he, hen⟩)
  cases hfil : store.bestEfforts.filter (fun x => x.name == n) with
  | nil =>
    have : e ∈ store.bestEfforts.filter (fun x => x.name == n) :=
      List.mem_filter.mpr ⟨he, by simp [hen]⟩
    rw [hfil] at this
    cases this
  | cons e0 es0 =>
    have hbm : minByMovingTime e0 es0 ∈ store.bestEfforts.filter (fun x => x.name == n) := by
      rw [hfil]; exact minByMovingTime_mem e0 es0
    have hname : (minByMovingTime e0 es0).name = n := by
      simpa using (List.mem_filter.mp hbm).2
    refine ⟨toPersonalBest (minByMovingTime e0 es0), ?_, hname⟩
    rw [GetPersonalBests, List.mem_filterMap]
    exact ⟨n, hn, by rw [hfil]⟩

/-- The three 5K best efforts of the claim's example: 1200 s, 1100 s,
1300 s. -/
def fiveK1200 : StravaBestEffort :=
  { blankEffort with id := 1, activityId := 11, name := "5K", distanceMeters := 5000, movingTimeSeconds := 1200, elapsedTimeSeconds := 1200, startDate := 100 }

def fiveK1100 : StravaBestEffort :=
  { blankEffort with id := 2, activityId := 12, name := "5K", distanceMeters := 5000, movingTimeSeconds := 1100, elapsedTimeSeconds := 1100, startDate := 200 }

def fiveK1300 : StravaBestEffort :=
  { blankEffort with id := 3, activityId := 13, name := "5K", distanceMeters := 5000, movingTimeSeconds := 1300, elapsedTimeSeconds := 1300, startDate := 300 }

/-- Store of the claim's concrete example, the newest effort being the
slowest. -/
def fiveKStore : Store :=
  { token := none
    activities := []
    bestEfforts := [fiveK1200, fiveK1100, fiveK1300] }

/-- **C7.** `GetPersonalBests` reports exactly the bucket names that have
at least one stored best-effort row; each reported entry is a stored row
of its bucket with the minimum moving time in that bucket (so a
historically fastest effort is still reported when newer, slower efforts
exist); and on the example store with 5K moving times {1200, 1100, 1300}
it returns precisely the 1100-second entry. -/
theorem getPersonalBests_min_per_bucket (store : Store) :
    (∀ n : String,
      (∃ pb ∈ GetPersonalBests store, pb.name = n) ↔
        (∃ e ∈ store.bestEfforts, e.name = n)) ∧
    (∀ pb ∈ GetPersonalBests store,
      (∃ e ∈ store.bestEfforts,
        e.name = pb.name ∧ e.movingTimeSeconds = pb.bestTimeSeconds ∧
        e.distanceMeters = pb.distanceMeters ∧ e.startDate = pb.achievedDate ∧
        e.activityId = pb.activityId) ∧
      ∀ e ∈ store.bestEfforts, e.name = pb.name →
        pb.bestTimeSeconds ≤ e.movingTimeSeconds) ∧
    GetPersonalBests fiveKStore = [⟨"5K", 5000, 1100, 200, 12⟩] := by
  refine ⟨fun n => ⟨?_, getPersonalBests_covers store n⟩, fun pb hpb => ?_, ?_⟩
  · rintro ⟨pb, hpb, rfl⟩
    obtain ⟨best, hmem, hname, _⟩ := getPersonalBests_elem_spec store pb hpb
    exact ⟨best, hmem, hname.symm⟩
  · obtain ⟨best, hmem, hname, hmt, hd, hsd, haid, hmin⟩ :=
      getPersonalBests_elem_spec store pb hpb
    refine ⟨⟨best, hmem, hname.symm, hmt.symm, hd.symm, hsd.symm, haid.symm⟩, ?_⟩
    intro e2 he2 hname2
    rw [hmt]
    exact hmin e2 he2 (by rw [hname2, hname])
  · rfl

/-- Witness for `getPersonalBests_min_per_bucket`: bucket "5K" of the
example store is reported. -/
theorem getPersonalBests_min_per_bucket_witness :
    ∃ pb ∈ GetPersonalBests fiveKStore, pb.name = "5K" :=
  ((getPersonalBests_min_per_bucket fiveKStore).1 "5K").mpr
    ⟨fiveK1200, List.mem_cons_self _ _, rfl⟩

/-! ## Claims C9 and C6: the enrichment pass -/

/-- The store effect of one enrichment iteration (the trace dropped). -/
def syncStepStore (detail : Int → RemoteResult StravaDetailedActivityResponse)
    (st : Store) (activityId : Int) : Store :=
  match detail activityId with
  | .ok d =>
    match d.best_efforts with
    | some (be0 :: bes) => SaveBestEfforts st ((be0 :: bes).map toBestEffort)
    | _ => st
  | _ => st

/-- The observable events one pending identifier contributes to the
enrichment pass: always exactly one detail request; a save and the 100 ms
delay follow only when the fetch succeeded with a non-empty best-effort
list. -/
def perIdEvents (detail : Int → RemoteResult StravaDetailedActivityResponse)
    (activityId : Int) : List SyncEvent :=
  match detail activityId with
  | .ok d =>
    match d.best_efforts with
    | some (be0 :: bes) =>
      [.detailCall activityId, .saveEfforts ((be0 :: bes).map toBestEffort), .delay 100]
    | _ => [.detailCall activityId]
  | _ => [.detailCall activityId]

theorem syncBestEffortStep_eq (detail : Int → RemoteResult StravaDetailedActivityResponse)
    (st : Store) (tr : List SyncEvent) (i : Int) :
    syncBestEffortStep detail (st, tr) i =
      (syncStepStore detail st i, tr ++ perIdEvents detail i) := by
  cases hd : detail i with
  | ok d =>
    cases hbe : d.best_efforts with
    | none => simp [syncBestEffortStep, syncStepStore, perIdEvents, hd, hbe]
    | some l =>
      cases l with
      | nil => simp [syncBestEffortStep, syncStepStore, perIdEvents, hd, hbe]
      | cons b bs => simp [syncBestEffortStep, syncStepStore, perIdEvents, hd, hbe]
  | netError => simp [syncBestEffortStep, syncStepStore, perIdEvents, hd]
  | httpFailure => simp [syncBestEffortStep, syncStepStore, perIdEvents, hd]
  | parseFailure => simp [syncBestEffortStep, syncStepStore, perIdEvents, hd]

theorem syncBestEfforts_fold (detail : Int → RemoteResult StravaDetailedActivityResponse)
    (ids : List Int) (st : Store) (tr : List SyncEvent) :
    ids.foldl (syncBestEffortStep detail) (st, tr) =
      (ids.foldl (syncStepStore detail) st, tr ++ ids.flatMap (perIdEvents detail)) := by
  induction ids generalizing st tr with
  | nil => simp
  | cons i rest ih =>
    rw [List.foldl_cons, syncBestEffortStep_eq, ih, List.foldl_cons]
    simp

/-- **C9, amended.** The enrichment pass performs exactly one detail call
per pending identifier, in order, with no retry; the ~100 ms delay is
inserted only after a detail fetch that succeeded and persisted a
non-empty best-effort list — after a failed fetch (network error,
non-success status, parse error) or an empty/absent best-effort list the
next detail call follows with no delay step in between. -/
theorem syncBestEfforts_trace_shape (store : Store)
    (detail : Int → RemoteResult StravaDetailedActivityResponse) :
    (SyncBestEfforts store detail).2 =
      (GetActivityIdsWithoutBestEfforts store).flatMap (perIdEvents detail) := by
  unfold SyncBestEfforts
  rw [syncBestEfforts_fold]
  simp

/-- Pending-activity store for the C9 counterexample: activities 21 and
22 stored, neither enriched yet. -/
def delayStore : Store :=
  { token := none
    activities := [{ blankRow with id := 21, activityType := "Run" },
                   { blankRow with id := 22, activityType := "Run" }]
    bestEfforts := [] }

/-- Detail endpoint for the C9 counterexample: activity 21 answers with a
non-success status, activity 22 succeeds with one best effort. -/
def delayDetail (i : Int) : RemoteResult StravaDetailedActivityResponse :=
  if i = 21 then .httpFailure
  else .ok ⟨some [⟨5, 22, 7, "5K", 5000, 1210, 1205, 400, none⟩]⟩

def isDetailCall : SyncEvent → Bool
  | .detailCall _ => true
  | _ => false

/-- Does the trace contain a detail call immediately followed by another
detail call (no delay step between them)? -/
def hasAdjacentDetailCalls : List SyncEvent → Bool
  | e1 :: e2 :: rest => (isDetailCall e1 && isDetailCall e2) || hasAdjacentDetailCalls (e2 :: rest)
  | _ => false

/-- **C9, counterexample.** In the execution over `delayStore` with
`delayDetail`, activity 21's fetch returns a non-success status and the
loop `continue`s straight into activity 22's detail call: the trace
contains two adjacent detail calls with no delay step between them,
refuting "a delay occurs between each pair of successive detail calls". -/
theorem syncBestEfforts_adjacent_calls :
    hasAdjacentDetailCalls (SyncBestEfforts delayStore delayDetail).2 = true := by rfl

theorem insertBestEffort_mem (rows : List StravaBestEffort) (e r : StravaBestEffort)
    (h : r ∈ insertBestEffort rows e) : r ∈ rows ∨ r = e := by
  unfold insertBestEffort at h
  by_cases hc : rows.any (fun r0 => r0.id == e.id) = true
  · rw [if_pos hc] at h; exact Or.inl h
  · rw [if_neg hc] at h
    rcases List.mem_append.mp h with h' | h'
    · exact Or.inl h'
    · exact Or.inr (List.mem_singleton.mp h')

theorem foldl_insert_mem (es rows : List StravaBestEffort) (r : StravaBestEffort)
    (h : r ∈ es.foldl insertBestEffort rows) : r ∈ rows ∨ r ∈ es := by
  induction es generalizing rows with
  | nil => exact Or.inl h
  | cons e es' ih =>
    rcases ih _ h with h' | h'
    · rcases insertBestEffort_mem rows e r h' with h'' | rfl
      · exact Or.inl h''
      · exact Or.inr (List.mem_cons_self _ _)
    · exact Or.inr (List.mem_cons_of_mem _ h')

/-- A best-effort identifier is present among the stored rows. -/
def bePresent (rows : List StravaBestEffort) (i : Int) : Prop :=
  ∃ r ∈ rows, r.id = i

theorem insertBestEffort_present (rows : List StravaBestEffort) (e : StravaBestEffort) :
    bePresent (insertBestEffort rows e) e.id := by
  unfold insertBestEffort
  by_cases hc : rows.any (fun r0 => r0.id == e.id) = true
  · rw [if_pos hc]
    obtain ⟨r, hr, hid⟩ := List.any_eq_true.mp hc
    exact ⟨r, hr, by simpa using hid⟩
  · rw [if_neg hc]
    exact ⟨e, List.mem_append.mpr (Or.inr (List.mem_singleton.mpr rfl)), rfl⟩

theorem insertBestEffort_mono (rows : List StravaBestEffort) (e : StravaBestEffort)
    (i : Int) (h : bePresent rows i) : bePresent (insertBestEffort rows e) i := by
  obtain ⟨r, hr, hid⟩ := h
  unfold insertBestEffort
  by_cases hc : rows.any (fun r0 => r0.id == e.id) = true
  · rw [if_pos hc]; exact ⟨r, hr, hid⟩
  · rw [if_neg hc]; exact ⟨r, List.mem_append.mpr (Or.inl hr), hid⟩

theorem foldl_insert_mono (es rows : List StravaBestEffort) (i : Int)
    (h : bePresent rows i) : bePresent (es.foldl insertBestEffort rows) i := by
  induction es generalizing rows with
  | nil => exact h
  | cons e es' ih => exact ih _ (insertBestEffort_mono rows e i h)

theorem foldl_insert_present_of_mem (es rows : List StravaBestEffort)
    (e : StravaBestEffort) (h : e ∈ es) :
    bePresent (es.foldl insertBestEffort rows) e.id := by
  induction es generalizing rows with
  | nil => cases h
  | cons e0 es' ih =>
    rcases List.mem_cons.mp h with rfl | h'
    · exact foldl_insert_mono es' _ _ (insertBestEffort_present rows e)
    · exact ih _ h'

theorem syncStepStore_activities (detail : Int → RemoteResult StravaDetailedActivityResponse)
    (st : Store) (j : Int) : (syncStepStore detail st j).activities = st.activities := by
  cases hd : detail j with
  | ok d =>
    cases hbe : d.best_efforts with
    | none => simp [syncStepStore, hd, hbe]
    | some l =>
      cases l with
      | nil => simp [syncStepStore, hd, hbe]
      | cons b bs => simp [syncStepStore, hd, hbe, SaveBestEfforts]
  | netError => simp [syncStepStore, hd]
  | httpFailure => simp [syncStepStore, hd]
  | parseFailure => simp [syncStepStore, hd]

theorem syncFold_activities (detail : Int → RemoteResult StravaDetailedActivityResponse)
    (ids : List Int) (st : Store) :
    (ids.foldl (syncStepStore detail) st).activities = st.activities := by
  induction ids generalizing st with
  | nil => rfl
  | cons j rest ih => rw [List.foldl_cons, ih, syncStepStore_activities]

theorem syncStepStore_present_mono (detail : Int → RemoteResult StravaDetailedActivityResponse)
    (st : Store) (j i : Int) (h : bePresent st.bestEfforts i) :
    bePresent (syncStepStore detail st j).bestEfforts i := by
  cases hd : detail j with
  | ok d =>
    cases hbe : d.best_efforts with
    | none => simpa [syncStepStore, hd, hbe] using h
    | some l =>
      cases l with
      | nil => simpa [syncStepStore, hd, hbe] using h
      | cons b bs =>
        simp only [syncStepStore, hd, hbe, SaveBestEfforts]
        exact foldl_insert_mono _ _ _ h
  | netError => simpa [syncStepStore, hd] using h
  | httpFailure => simpa [syncStepStore, hd] using h
  | parseFailure => simpa [syncStepStore, hd] using h

theorem syncFold_present_mono (detail : Int → RemoteResult StravaDetailedActivityResponse)
    (ids : List Int) (st : Store) (i : Int) (h : bePresent st.bestEfforts i) :
    bePresent ((ids.foldl (syncStepStore detail) st)).bestEfforts i := by
  induction ids generalizing st with
  | nil => exact h
  | cons j rest ih => exact ih _ (syncStepStore_present_mono detail st j i h)

theorem syncFold_sources (detail : Int → RemoteResult StravaDetailedActivityResponse)
    (ids : List Int) (st : Store) :
    ∀ r ∈ (ids.foldl (syncStepStore detail) st).bestEfforts,
      r ∈ st.bestEfforts ∨
      ∃ j ∈ ids, ∃ d, detail j = .ok d ∧
        ∃ l, d.best_efforts = some l ∧ ∃ e ∈ l, r = toBestEffort e := by
  induction ids generalizing st with
  | nil => exact fun r h => Or.inl h
  | cons j rest ih =>
    intro r h
    rw [List.foldl_cons] at h
    rcases ih _ r h with h' | ⟨j', hj', d, hd, l, hbel, e, he, hre⟩
    · cases hd : detail j with
      | ok d =>
        cases hbe : d.best_efforts with
        | none => simp only [syncStepStore, hd, hbe] at h'; exact Or.inl h'
        | some l =>
          cases l with
          | nil => simp only [syncStepStore, hd, hbe] at h'; exact Or.inl h'
          | cons b bs =>
            simp only [syncStepStore, hd, hbe, SaveBestEfforts] at h'
            rcases foldl_insert_mem _ _ _ h' with h'' | h''
            · exact Or.inl h''
            · obtain ⟨e, he, hre⟩ := List.mem_map.mp h''
              exact Or.inr ⟨j, List.mem_cons_self _ _, d, hd, b :: bs, hbe, e, he, hre.symm⟩
      | netError => simp only [syncStepStore, hd] at h'; exact Or.inl h'
      | httpFailure => simp only [syncStepStore, hd] at h'; exact Or.inl h'
      | parseFailure => simp only [syncStepStore, hd] at h'; exact Or.inl h'
    · exact Or.inr ⟨j', List.mem_cons_of_mem _ hj', d, hd, l, hbel, e, he, hre⟩

theorem mem_idsWithout (store : Store) (i : Int) :
    i ∈ GetActivityIdsWithoutBestEfforts store ↔
      (∃ a ∈ store.activities, a.id = i) ∧
      ∀ be ∈ store.bestEfforts, be.activityId ≠ i := by
  unfold GetActivityIdsWithoutBestEfforts
  rw [List.mem_map]
  constructor
  · rintro ⟨a, haf, rfl⟩
    obtain ⟨ha, hpred⟩ := List.mem_filter.mp haf
    refine ⟨⟨a, ha, rfl⟩, ?_⟩
    intro be hbe heq
    have : store.bestEfforts.any (fun b => b.activityId == a.id) = true :=
      List.any_eq_true.mpr ⟨be, hbe, by simpa using heq⟩
    simp [this] at hpred
  · rintro ⟨⟨a, ha, rfl⟩, hall⟩
    refine ⟨a, List.mem_filter.mpr ⟨ha, ?_⟩, rfl⟩
    simp only [Bool.not_eq_eq_eq_not, Bool.not_true, List.any_eq_false]
    intro be hbe
    simpa using hall be hbe

theorem syncActivities_result_ignores_detail (store : Store) (now : Int) (env : RemoteEnv)
    (d' : Int → RemoteResult StravaDetailedActivityResponse) :
    (SyncActivities store now { env with detail := d' }).2 =
      (SyncActivities store now env).2 := by
  simp only [SyncActivities]
  cases (GetValidToken store now env.refreshResp).result with
  | error e => rfl
  | ok o =>
    cases o with
    | none => rfl
    | some t =>
      cases FetchActivitiesFromStrava
        (env.pages (GetLatestActivityDate (GetValidToken store now env.refreshResp).store)) with
      | error e => rfl
      | ok acts => rfl

/-- **C6.** If the detail fetch for a pending activity `i` fails
(network error, non-success status, or parse error), the failing
iteration leaves the store untouched (the item is skipped); every other
pending identifier whose fetch succeeds still gets each of its best
efforts persisted in the final store; the result of the encompassing
`SyncActivities` never depends on the detail endpoint's outcomes (a
per-item failure cannot abort the sync); and — for a remote whose effort
payloads carry their own activity's identifier — activity `i` is still
reported as lacking best efforts after the pass, eligible for the next
one. -/
theorem syncBestEfforts_isolation (store : Store)
    (detail : Int → RemoteResult StravaDetailedActivityResponse) (i : Int)
    (hi : i ∈ GetActivityIdsWithoutBestEfforts store)
    (hfail : ∀ d, detail i ≠ .ok d)
    (hwf : ∀ j d, detail j = .ok d → ∀ l, d.best_efforts = some l →
      ∀ e ∈ l, e.activity_id = j) :
    (∀ st : Store, syncStepStore detail st i = st) ∧
    (∀ j ∈ GetActivityIdsWithoutBestEfforts store,
      ∀ d l, detail j = .ok d → d.best_efforts = some l → ∀ e ∈ l,
        ∃ r ∈ (SyncBestEfforts store detail).1.bestEfforts, r.id = e.id) ∧
    (∀ (store2 : Store) (now : Int) (env : RemoteEnv)
      (d' : Int → RemoteResult StravaDetailedActivityResponse),
      (SyncActivities store2 now { env with detail := d' }).2 =
        (SyncActivities store2 now env).2) ∧
    i ∈ GetActivityIdsWithoutBestEfforts (SyncBestEfforts store detail).1 := by
  have h1 : (SyncBestEfforts store detail).1 =
      (GetActivityIdsWithoutBestEfforts store).foldl (syncStepStore detail) store := by
    unfold SyncBestEfforts
    rw [syncBestEfforts_fold]
  refine ⟨?_, ?_, fun store2 now env d' =>
    syncActivities_result_ignores_detail store2 now env d', ?_⟩
  · intro st
    cases hd : detail i with
    | ok d => exact absurd hd (hfail d)
    | netError => simp [syncStepStore, hd]
    | httpFailure => simp [syncStepStore, hd]
    | parseFailure => simp [syncStepStore, hd]
  · intro j hj d l hd hbel e he
    obtain ⟨b, bs, rfl⟩ : ∃ b bs, l = b :: bs := by
      cases l with
      | nil => cases he
      | cons b bs => exact ⟨b, bs, rfl⟩
    obtain ⟨l1, l2, hids⟩ := List.append_of_mem hj
    rw [h1, hids, List.foldl_append, List.foldl_cons]
    have hpres : bePresent
        ((syncStepStore detail (l1.foldl (syncStepStore detail) store) j)).bestEfforts e.id := by
      simp only [syncStepStore, hd, hbel, SaveBestEfforts]
      exact foldl_insert_present_of_mem _ _ (toBestEffort e) (List.mem_map.mpr ⟨e, he, rfl⟩)
    exact syncFold_present_mono detail l2 _ e.id hpres
  · obtain ⟨⟨a, ha, haid⟩, hnone⟩ := (mem_idsWithout store i).mp hi
    refine (mem_idsWithout _ i).mpr ⟨⟨a, ?_, haid⟩, ?_⟩
    · rw [h1, syncFold_activities]; exact ha
    · intro be hbe
      rw [h1] at hbe
      rcases syncFold_sources detail _ store be hbe with h' | ⟨j, hj, d, hd, ll, hbel, e, he, rfl⟩
      · exact hnone be h'
      · have hji : j ≠ i := fun heq => hfail d (by rw [← heq]; exact hd)
        have haid2 : (toBestEffort e).activityId = j := hwf j d hd ll hbel e he
        rw [haid2]
        exact hji

/-- Detail endpoint for the C6 witness: activity 21 fails with a
non-success status; every other identifier succeeds with one best effort
belonging to the queried activity. -/
def c6Detail (i : Int) : RemoteResult StravaDetailedActivityResponse :=
  if i = 21 then .httpFailure
  else .ok ⟨some [⟨i + 1000, i, 7, "5K", 5000, 1210, 1205, 400, none⟩]⟩

/-- Witness for `syncBestEfforts_isolation`: after the pass over
`delayStore` (activities 21 and 22 pending) with activity 21 failing,
activity 21 is still listed as lacking best efforts. -/
theorem syncBestEfforts_isolation_witness :
    21 ∈ GetActivityIdsWithoutBestEfforts (SyncBestEfforts delayStore c6Detail).1 :=
  (syncBestEfforts_isolation delayStore c6Detail 21
    (by decide)
    (by intro d h; simp [c6Detail] at h)
    (by
      intro j d hd l hbe e he
      unfold c6Detail at hd
      by_cases hj : j = 21
      · rw [if_pos hj] at hd; cases hd
      · rw [if_neg hj] at hd
        cases hd
        cases hbe
        rcases List.mem_singleton.mp he with rfl
        rfl)).2.2.2

/-! ## Claim C1: commit granularity of the paginated sync -/

theorem getValidToken_store_activities (store : Store) (now : Int)
    (resp : RemoteResult StravaRefreshResponse) :
    (GetValidToken store now resp).store.activities = store.activities := by
  cases hst : store.token with
  | none => simp [GetValidToken, hst]
  | some t =>
    by_cases hexp : t.expiresAt ≤ now + 300
    · cases resp with
      | ok r => simp [GetValidToken, hst, hexp, RefreshToken, SaveToken]
      | netError => simp [GetValidToken, hst, hexp, RefreshToken]
      | httpFailure => simp [GetValidToken, hst, hexp, RefreshToken]
      | parseFailure => simp [GetValidToken, hst, hexp, RefreshToken]
    · simp [GetValidToken, hst, hexp]

/-- **C1, amended.** `SyncActivities` accumulates all pages in memory and
saves the kept items in a single batch only after the whole pagination
succeeded: whenever the run fails — in particular when a fatal
fetch/parse failure occurs on page N — *no* activity row from the run is
committed; the kept items of pages 1..N-1 are not in the store. -/
theorem syncActivities_error_commits_nothing (store : Store) (now : Int) (env : RemoteEnv)
    (e : StravaError) (h : (SyncActivities store now env).2 = .error e) :
    (SyncActivities store now env).1.activities = store.activities := by
  have hstep := getValidToken_store_activities store now env.refreshResp
  simp only [SyncActivities] at h ⊢
  cases htok : (GetValidToken store now env.refreshResp).result with
  | error e2 => simp only [htok] at h ⊢; exact hstep
  | ok o =>
    cases o with
    | none => simp only [htok] at h ⊢; exact hstep
    | some t =>
      simp only [htok] at h ⊢
      cases hf : FetchActivitiesFromStrava
        (env.pages (GetLatestActivityDate (GetValidToken store now env.refreshResp).store)) with
      | error e2 => simp only [hf] at h ⊢; exact hstep
      | ok acts => simp only [hf] at h; exact Except.noConfusion h

/-- Page 1 of the C1 counterexample: a full page of 100 kept runs. -/
def page1Items : List StravaActivityResponse :=
  (List.range 100).map (fun k =>
    { blankResp with id := (k : Int), type := "Run", start_date := (k : Int), start_date_local := (k : Int) })

/-- Remote for the C1 counterexample: page 1 full, page 2 unparseable. -/
def c1Env : RemoteEnv :=
  { refreshResp := .netError
    pages := fun _ => [.ok page1Items, .parseFailure]
    detail := fun _ => .netError }

/-- **C1, counterexample.** With a fresh token, a full first page of 100
kept runs, and an unparseable second page, the run aborts with the parse
error and the store still holds *no* activity rows: page 1's kept items
(all 100 of them) were not committed before page 2 was fetched, refuting
"the kept items of pages 1..N-1 are already durably committed". -/
theorem syncActivities_page_failure_loses_page1 :
    (SyncActivities freshStore 0 c1Env).2 = .error .parse ∧
    (page1Items.filterMap keepActivity).length = 100 ∧
    (SyncActivities freshStore 0 c1Env).1.activities = [] := by
  refine ⟨rfl, rfl, rfl⟩

/-- Witness for `syncActivities_error_commits_nothing` at the concrete
failing remote of the counterexample. -/
theorem syncActivities_error_commits_nothing_witness :
    (SyncActivities freshStore 0 c1Env).1.activities = freshStore.activities :=
  syncActivities_error_commits_nothing freshStore 0 c1Env .parse rfl

/-! ## Claim C8: idempotence of `sync` against a fixed history -/

theorem chunksOf100_nil : chunksOf100 ([] : List α) = [] := rfl

theorem chunksOf100_cons (x : α) (xs : List α) :
    chunksOf100 (x :: xs) = ((x :: xs).take 100) :: chunksOf100 ((x :: xs).drop 100) := by
  show ((x :: xs).take 100) :: chunksOf100Go xs.length ((x :: xs).drop 100) =
    ((x :: xs).take 100) :: chunksOf100 ((x :: xs).drop 100)
  rw [chunksOf100, chunksOf100Go_fuel xs.length ((x :: xs).drop 100).length _
    (by rw [List.length_drop]; simp only [List.length_cons]; omega) (le_refl _)]

/-- The client page loop over the server's pagination of a fixed list
collects exactly that list, filtered. -/
theorem fetchPaged_server (l : List StravaActivityResponse) :
    FetchActivitiesFromStrava ((chunksOf100 l).map .ok) =
      .ok (l.filterMap keepActivity) := by
  have H : ∀ n (l : List StravaActivityResponse), l.length ≤ n →
      FetchActivitiesFromStrava ((chunksOf100 l).map .ok) =
        .ok (l.filterMap keepActivity) := by
    intro n
    induction n with
    | zero =>
      intro l hl
      have : l = [] := List.eq_nil_of_length_eq_zero (Nat.le_zero.mp hl)
      subst this
      rw [chunksOf100_nil]
      rfl
    | succ n ih =>
      intro l hl
      cases l with
      | nil => rw [chunksOf100_nil]; rfl
      | cons x xs =>
        rw [chunksOf100_cons, List.map_cons]
        show (if ((x :: xs).take 100).length < 100 then
            Except.ok (((x :: xs).take 100).filterMap keepActivity)
          else (FetchActivitiesFromStrava ((chunksOf100 ((x :: xs).drop 100)).map .ok)).map
            (fun more => ((x :: xs).take 100).filterMap keepActivity ++ more)) = _
        by_cases hlen : ((x :: xs).take 100).length < 100
        · rw [if_pos hlen]
          have hle : (x :: xs).length ≤ 100 := by
            rw [List.length_take] at hlen
            omega
          rw [List.take_of_length_le hle]
        · rw [if_neg hlen]
          have h100 : 100 ≤ (x :: xs).length := by
            rw [List.length_take] at hlen
            omega
          have hdrop : ((x :: xs).drop 100).length ≤ n := by
            rw [List.length_drop]
            simp only [List.length_cons] at hl ⊢
            omega
          rw [ih _ hdrop]
          show Except.ok (((x :: xs).take 100).filterMap keepActivity ++
            ((x :: xs).drop 100).filterMap keepActivity) = _
          rw [← List.filterMap_append, List.take_append_drop]
  exact H l.length l (le_refl _)

theorem le_foldl_max (l : List Int) (a b : Int) (h : a ≤ b) : a ≤ l.foldl max b := by
  induction l generalizing b with
  | nil => exact h
  | cons x xs ih => exact ih (max b x) (le_trans h (le_max_left b x))

theorem foldl_max_append_le (l s : List Int) (a : Int) :
    l.foldl max a ≤ (l ++ s).foldl max a := by
  rw [List.foldl_append]
  exact le_foldl_max s _ _ (le_refl _)

theorem maxOfInts_append_ge (l s : List Int) (m : Int) (h : maxOfInts l = some m) :
    ∃ m2, maxOfInts (l ++ s) = some m2 ∧ m ≤ m2 := by
  cases l with
  | nil => cases h
  | cons d ds =>
    have hm : m = ds.foldl max d := (Option.some.inj h).symm
    refine ⟨(ds ++ s).foldl max d, rfl, ?_⟩
    rw [hm]
    exact foldl_max_append_le ds s d

theorem afterKeeps_none (sa : StravaActivityResponse) : afterKeeps none sa = true := rfl

theorem afterKeeps_mono (m1 m2 : Int) (sa : StravaActivityResponse) (hle : m1 ≤ m2)
    (h : afterKeeps (some m2) sa = true) : afterKeeps (some m1) sa = true := by
  simp only [afterKeeps, decide_eq_true_eq] at h ⊢
  omega

theorem keepActivity_fields (sa : StravaActivityResponse) (a : StravaActivity)
    (h : keepActivity sa = some a) : a.id = sa.id ∧ a.startDate = sa.start_date := by
  unfold keepActivity at h
  by_cases hc : sa.type = "Run" ∨ sa.type = "VirtualRun" ∨ sa.type = "TrailRun"
  · rw [if_pos hc] at h
    cases h
    exact ⟨rfl, rfl⟩
  · rw [if_neg hc] at h
    cases h

theorem saveList_length (now : Int) (acts : List StravaActivity)
    (rows : List StravaActivityRow) (h : ∀ a ∈ acts, hasId rows a.id = true) :
    (acts.foldl (upsertActivity now) rows).length = rows.length := by
  have := congrArg List.length (saveList_frame now acts rows h)
  simpa using this

theorem upsert_startDates (now : Int) (rows : List StravaActivityRow) (a : StravaActivity) :
    ∃ s, (upsertActivity now rows a).map (·.startDate) = rows.map (·.startDate) ++ s := by
  cases h : hasId rows a.id with
  | true => exact ⟨[], by rw [startDates_eq_of_frame _ _ (upsert_frame now rows a h), List.append_nil]⟩
  | false =>
    refine ⟨[a.startDate], ?_⟩
    simp [upsertActivity, h]

theorem saveList_startDates (now : Int) (acts : List StravaActivity)
    (rows : List StravaActivityRow) :
    ∃ s, (acts.foldl (upsertActivity now) rows).map (·.startDate) =
      rows.map (·.startDate) ++ s := by
  induction acts generalizing rows with
  | nil => exact ⟨[], by simp⟩
  | cons a rest ih =>
    rw [List.foldl_cons]
    obtain ⟨s1, hs1⟩ := ih (upsertActivity now rows a)
    obtain ⟨s0, hs0⟩ := upsert_startDates now rows a
    exact ⟨s0 ++ s1, by rw [hs1, hs0, List.append_assoc]⟩

theorem syncBestEfforts_activities (store : Store)
    (detail : Int → RemoteResult StravaDetailedActivityResponse) :
    (SyncBestEfforts store detail).1.activities = store.activities := by
  unfold SyncBestEfforts
  rw [syncBestEfforts_fold]
  exact syncFold_activities detail _ store

/-- Shape of a successful sync run against a fixed server history: the
returned count is the number of kept items newer than the pre-run cursor,
and the activity table afterwards is the pre-run table upserted with
exactly those items (in one batch, skipped when empty). -/
theorem syncActivities_ok_shape (store : Store) (now : Int) (env : RemoteEnv)
    (history : List StravaActivityResponse) (hpages : env.pages = serverRespond history)
    (n : Nat) (h : (SyncActivities store now env).2 = .ok n) :
    ∃ F, F = (history.filter (afterKeeps (GetLatestActivityDate store))).filterMap
        keepActivity ∧
      n = F.length ∧
      (SyncActivities store now env).1.activities =
        (if F.isEmpty then store.activities
         else F.foldl (upsertActivity now) store.activities) := by
  simp only [SyncActivities] at h ⊢
  cases htok : (GetValidToken store now env.refreshResp).result with
  | error e =>
    simp only [htok] at h
    exact Except.noConfusion h
  | ok o =>
    cases o with
    | none =>
      simp only [htok] at h
      exact Except.noConfusion h
    | some t =>
      simp only [htok] at h ⊢
      have hc : GetLatestActivityDate (GetValidToken store now env.refreshResp).store
          = GetLatestActivityDate store := by
        unfold GetLatestActivityDate
        rw [getValidToken_store_activities]
      rw [hpages, hc] at h ⊢
      rw [show serverRespond history (GetLatestActivityDate store) =
        (chunksOf100 ((history.filter (afterKeeps (GetLatestActivityDate store))))).map .ok
        from rfl] at h ⊢
      rw [fetchPaged_server] at h ⊢
      refine ⟨_, rfl, (Except.ok.inj h).symm, ?_⟩
      show ((SyncBestEfforts
          (if ((history.filter (afterKeeps (GetLatestActivityDate store))).filterMap
              keepActivity).isEmpty
           then (GetValidToken store now env.refreshResp).store
           else SaveActivities (GetValidToken store now env.refreshResp).store now
             ((history.filter (afterKeeps (GetLatestActivityDate store))).filterMap
               keepActivity))
          env.detail).1).activities = _
      rw [syncBestEfforts_activities]
      by_cases hFe : ((history.filter (afterKeeps (GetLatestActivityDate store))).filterMap
          keepActivity).isEmpty
      · rw [if_pos hFe, if_pos hFe]
        exact getValidToken_store_activities store now env.refreshResp
      · rw [if_neg hFe, if_neg hFe]
        show ((history.filter (afterKeeps (GetLatestActivityDate store))).filterMap
            keepActivity).foldl (upsertActivity now)
            (GetValidToken store now env.refreshResp).store.activities = _
        rw [getValidToken_store_activities]

/-- **C8.** Against a fixed remote history, a second `SyncActivities`
immediately after a successful one adds zero net new activity rows: the
second run's cursor (the maximum stored start date), the server's
`after` filter, and the identifier-keyed upsert together guarantee the
activity table's size is unchanged. -/
theorem syncActivities_idempotent (store : Store) (now1 now2 : Int) (env : RemoteEnv)
    (history : List StravaActivityResponse)
    (hpages : env.pages = serverRespond history)
    (n1 : Nat) (hrun1 : (SyncActivities store now1 env).2 = .ok n1) :
    (SyncActivities (SyncActivities store now1 env).1 now2 env).1.activities.length =
      (SyncActivities store now1 env).1.activities.length := by
  obtain ⟨F1, hF1def, hn1, hS1acts⟩ :=
    syncActivities_ok_shape store now1 env history hpages n1 hrun1
  set S1 := (SyncActivities store now1 env).1 with hS1
  simp only [SyncActivities]
  cases htok2 : (GetValidToken S1 now2 env.refreshResp).result with
  | error e =>
    simp only [htok2]
    exact congrArg List.length (getValidToken_store_activities S1 now2 env.refreshResp)
  | ok o =>
    cases o with
    | none =>
      simp only [htok2]
      exact congrArg List.length (getValidToken_store_activities S1 now2 env.refreshResp)
    | some t2 =>
      simp only [htok2]
      have hc2 : GetLatestActivityDate (GetValidToken S1 now2 env.refreshResp).store
          = GetLatestActivityDate S1 := by
        unfold GetLatestActivityDate
        rw [getValidToken_store_activities]
      rw [hpages, hc2]
      rw [show serverRespond history (GetLatestActivityDate S1) =
        (chunksOf100 ((history.filter (afterKeeps (GetLatestActivityDate S1))))).map .ok
        from rfl]
      rw [fetchPaged_server]
      show ((SyncBestEfforts
          (if ((history.filter (afterKeeps (GetLatestActivityDate S1))).filterMap
              keepActivity).isEmpty
           then (GetValidToken S1 now2 env.refreshResp).store
           else SaveActivities (GetValidToken S1 now2 env.refreshResp).store now2
             ((history.filter (afterKeeps (GetLatestActivityDate S1))).filterMap
               keepActivity))
          env.detail).1).activities.length = S1.activities.length
      rw [syncBestEfforts_activities]
      by_cases hF2e : ((history.filter (afterKeeps (GetLatestActivityDate S1))).filterMap
          keepActivity).isEmpty
      · rw [if_pos hF2e, getValidToken_store_activities]
      · rw [if_neg hF2e]
        show (((history.filter (afterKeeps (GetLatestActivityDate S1))).filterMap
            keepActivity).foldl (upsertActivity now2)
            (GetValidToken S1 now2 env.refreshResp).store.activities).length =
          S1.activities.length
        rw [getValidToken_store_activities]
        refine saveList_length now2 _ S1.activities ?_
        intro a ha
        obtain ⟨sa, hsa_f, hk⟩ := List.mem_filterMap.mp ha
        obtain ⟨hsa_hist, hsa_after⟩ := List.mem_filter.mp hsa_f
        have hafter1 : afterKeeps (GetLatestActivityDate store) sa = true := by
          cases hc1 : GetLatestActivityDate store with
          | none => exact afterKeeps_none sa
          | some m1 =>
            have hext : ∃ s, S1.activities.map (·.startDate) =
                store.activities.map (·.startDate) ++ s := by
              rw [hS1acts]
              by_cases hF1e : F1.isEmpty
              · rw [if_pos hF1e]
                exact ⟨[], by rw [List.append_nil]⟩
              · rw [if_neg hF1e]
                exact saveList_startDates now1 F1 store.activities
            obtain ⟨s, hs⟩ := hext
            have hm2 : ∃ m2, GetLatestActivityDate S1 = some m2 ∧ m1 ≤ m2 := by
              unfold GetLatestActivityDate at hc1 ⊢
              rw [hs]
              exact maxOfInts_append_ge _ s m1 hc1
            obtain ⟨m2, hm2eq, hle⟩ := hm2
            rw [hm2eq] at hsa_after
            exact afterKeeps_mono m1 m2 sa hle hsa_after
        have haF1 : a ∈ F1 := by
          rw [hF1def]
          exact List.mem_filterMap.mpr ⟨sa, List.mem_filter.mpr ⟨hsa_hist, hafter1⟩, hk⟩
        have hF1ne : ¬ (F1.isEmpty = true) := by
          cases hF1c : F1 with
          | nil => rw [hF1c] at haF1; cases haF1
          | cons y ys => simp
        rw [hasId_iff, hS1acts, if_neg hF1ne]
        exact (saveList_ids now1 F1 store.activities a.id).mpr (Or.inr ⟨a, haF1, rfl⟩)

/-- One-run remote history for the C8 witness. -/
def c8History : List StravaActivityResponse :=
  [{ blankResp with id := 50, type := "Run", start_date := 1000, start_date_local := 990 }]

/-- Remote environment of the C8 witness: the server pages `c8History`,
the detail endpoint always fails (harmlessly). -/
def c8Env : RemoteEnv :=
  { refreshResp := .netError
    pages := serverRespond c8History
    detail := fun _ => .netError }

/-- Witness for `syncActivities_idempotent`: the first sync of the
one-run history succeeds (count 1) and the second adds no rows. -/
theorem syncActivities_idempotent_witness :
    (SyncActivities (SyncActivities freshStore 0 c8Env).1 5 c8Env).1.activities.length =
      (SyncActivities freshStore 0 c8Env).1.activities.length :=
  syncActivities_idempotent freshStore 0 5 c8Env c8History rfl 1 rfl
